import Mathlib

/-!
Verification of the bundler utility core (src/bundler/src/util.rs):
the take/replace mutation protocol (MapWithMut), the placeholder values
for the AST node types, the hygiene-removal visitor, the dual-mode
clone-out map and derived set, and the sequential join primitive.
-/

set_option autoImplicit false

namespace SwcUtil

/-- Modelled from the spec: the span type of swc_common (not under src/):
a source range with low and high byte positions and an attached
scope-identity tag (syntax context). The canonical empty tag is 0. -/
structure Span where
  lo : Nat
  hi : Nat
  ctxt : Nat

/-- Modelled from the spec: SyntaxContext::empty, the canonical empty
scope-identity tag. -/
def emptySyntaxContext : Nat := 0

/-- Modelled from the spec: Span::with_ctxt keeps the positions and
replaces the scope-identity tag. -/
def Span.with_ctxt (s : Span) (c : Nat) : Span :=
  Span.mk s.lo s.hi c

/-- Modelled from the spec: DUMMY_SP, the dummy span. -/
def DUMMY_SP : Span := Span.mk 0 0 0

/-- std::mem::replace on an explicitly passed location: the first
component is the returned previous value, the second is what the
location holds afterwards. -/
def replace {T : Type} (loc : T) (newVal : T) : T × T := (loc, newVal)

/-- The MapWithMut trait of util.rs: a placeholder-capable type exposes
a designated cheap dummy value. -/
class MapWithMut (T : Type) where
  dummy : T

/-- MapWithMut::take: replace(self, Self::dummy()). First component is
the returned original value, second is the location afterwards. -/
def take {T : Type} [MapWithMut T] (loc : T) : T × T :=
  replace loc MapWithMut.dummy

/-- MapWithMut::map_with_mut: take the value out (leaving the dummy),
apply op, write the result back. Returns the location afterwards. -/
def map_with_mut {T : Type} [MapWithMut T] (op : T → T) (loc : T) : T :=
  let dummy := @MapWithMut.dummy T _
  let p := replace loc dummy
  let v := op p.1
  let q := replace p.2 v
  q.2

/-- MapWithMut::map_with_mut with a transform that may fail (a Rust
panic or propagated error is an Except.error): the failure happens
after the first replace has written the dummy and before the write
back, so on failure the location is left holding the dummy. First
component is the outcome seen by the caller, second the location
afterwards. -/
def map_with_mut_e {T E : Type} [MapWithMut T] (op : T → Except E T) (loc : T) :
    Except E Unit × T :=
  let p := replace loc (@MapWithMut.dummy T _)
  match op p.1 with
  | Except.ok v => (Except.ok (), (replace p.2 v).2)
  | Except.error e => (Except.error e, p.2)

/-- Modelled from the spec: the identifier node of swc_ecma_ast (not
under src/): a name plus a span. Ident::new builds it from both. -/
structure Ident where
  sym : String
  span : Span

/-- Ident::new. -/
def Ident.new (sym : String) (span : Span) : Ident := Ident.mk sym span

/-- Modelled from the spec: an exclusively owned boxed node. -/
structure Box (T : Type) where
  inner : T

/-- Modelled from the spec: the statement node of swc_ecma_ast; the
variants the core constructs are the empty statement (used as the
placeholder) plus representative other variants. -/
inductive Stmt where
  | empty (span : Span)
  | exprStmt (span : Span) (kind : Nat)

/-- Modelled from the spec: the module-item node of swc_ecma_ast:
either a statement or a module declaration. -/
inductive ModuleItem where
  | stmt (s : Stmt)
  | moduleDecl (span : Span) (kind : Nat)

/-- Modelled from the spec: the expression node of swc_ecma_ast; the
invalid marker expression is the placeholder. -/
inductive Expr where
  | invalid (span : Span)
  | ident (i : Ident)
  | lit (span : Span) (n : Nat)

/-- Modelled from the spec: the pattern node of swc_ecma_ast; the
invalid marker pattern is the placeholder. -/
inductive Pat where
  | invalid (span : Span)
  | ident (i : Ident)

/-- Modelled from the spec: the destructured-binding-pattern property
node; the assign variant carries a span, a key identifier and an
optional value expression. -/
inductive ObjectPatProp where
  | assign (span : Span) (key : Ident) (value : Option (Box Expr))
  | keyValue (kind : Nat)

/-- Modelled from the spec: the pattern-or-expression union node of
swc_ecma_ast. -/
inductive PatOrExpr where
  | pat (p : Box Pat)
  | expr (e : Box Expr)

instance : MapWithMut ModuleItem :=
  MapWithMut.mk (ModuleItem.stmt (Stmt.empty DUMMY_SP))

instance : MapWithMut Stmt :=
  MapWithMut.mk (Stmt.empty DUMMY_SP)

instance : MapWithMut Expr :=
  MapWithMut.mk (Expr.invalid DUMMY_SP)

instance : MapWithMut Pat :=
  MapWithMut.mk (Pat.invalid DUMMY_SP)

instance {T : Type} : MapWithMut (Option T) :=
  MapWithMut.mk none

instance {T : Type} : MapWithMut (List T) :=
  MapWithMut.mk []

instance {T : Type} [MapWithMut T] : MapWithMut (Box T) :=
  MapWithMut.mk (Box.mk MapWithMut.dummy)

/-- Ident::dummy from util.rs: Ident::new(js_word!(""), DUMMY_SP). -/
def Ident.dummy : Ident := Ident.new "" DUMMY_SP

instance : MapWithMut Ident :=
  MapWithMut.mk Ident.dummy

instance : MapWithMut ObjectPatProp :=
  MapWithMut.mk (ObjectPatProp.assign DUMMY_SP Ident.dummy none)

/-- PatOrExpr::dummy from util.rs:
PatOrExpr::Pat(Box::new(Pat::Ident(Ident::dummy()))). -/
def PatOrExpr.dummy : PatOrExpr := PatOrExpr.pat (Box.mk (Pat.ident Ident.dummy))

instance : MapWithMut PatOrExpr :=
  MapWithMut.mk PatOrExpr.dummy

/-- Discriminator for the union node: true on the pattern variant. -/
def PatOrExpr.isPat : PatOrExpr → Bool
  | PatOrExpr.pat _ => true
  | PatOrExpr.expr _ => false

/-- HygieneRemover::visit_mut_span from util.rs:
s = s.with_ctxt(SyntaxContext::empty()). -/
def visit_mut_span (s : Span) : Span :=
  s.with_ctxt emptySyntaxContext

/-- Modelled from the spec: the tree the visitor traverses (the
swc_ecma_visit traversal is not under src/): every node carries some
non-span content, a span, and an ordered list of children; the visitor
reaches every span in the tree. -/
inductive Node where
  | node (kind : Nat) (span : Span) (children : List Node)

mutual

/-- The hygiene-removal pass: applies visit_mut_span to every span
reachable in the tree, depth first, in place. -/
def removeHygiene : Node → Node
  | Node.node k s cs => Node.node k (visit_mut_span s) (removeHygieneList cs)

def removeHygieneList : List Node → List Node
  | [] => []
  | c :: cs => removeHygiene c :: removeHygieneList cs

end

mutual

/-- All spans reachable in a tree, in traversal order. -/
def spansOf : Node → List Span
  | Node.node _ s cs => s :: spansOfList cs

def spansOfList : List Node → List Span
  | [] => []
  | c :: cs => spansOf c ++ spansOfList cs

end

/-- The non-tag content of a node: everything except the syntax
contexts (kind, the lo and hi positions of every span, ordering and
structure of children). -/
inductive Shape where
  | node (kind : Nat) (lo : Nat) (hi : Nat) (children : List Shape)

mutual

/-- Projection of a tree onto its non-tag content. -/
def shapeOf : Node → Shape
  | Node.node k s cs => Shape.node k s.lo s.hi (shapeOfList cs)

def shapeOfList : List Node → List Shape
  | [] => []
  | c :: cs => shapeOf c :: shapeOfList cs

end

/-- A concrete tree with nonempty scope-identity tags. -/
def sampleTree : Node :=
  Node.node 1 (Span.mk 3 9 5)
    [Node.node 2 (Span.mk 4 6 7) [], Node.node 3 (Span.mk 6 8 2) []]

/-- Lookup in an association list, the semantics of get on the hash
maps backing both CloneMap backends. -/
def assocGet {K V : Type} [DecidableEq K] (k : K) : List (K × V) → Option V
  | [] => none
  | p :: ps => if p.1 = k then some p.2 else assocGet k ps

/-- Insert-or-replace in an association list, the semantics of insert
on the hash maps backing both CloneMap backends. -/
def assocInsert {K V : Type} [DecidableEq K] (k : K) (v : V) :
    List (K × V) → List (K × V)
  | [] => [(k, v)]
  | p :: ps => if p.1 = k then (k, v) :: ps else p :: assocInsert k v ps

/-- The sequential CloneMap backend: RefCell<HashMap<K, V>>, modelled
as a single association list. -/
structure SeqMap (K V : Type) where
  inner : List (K × V)

/-- Sequential CloneMap::get: clones the stored value out, or none. -/
def SeqMap.get {K V : Type} [DecidableEq K] (m : SeqMap K V) (k : K) : Option V :=
  assocGet k m.inner

/-- Sequential CloneMap::insert: stores v under k, returning the prior
value if any; the second component is the map afterwards. -/
def SeqMap.insert {K V : Type} [DecidableEq K] (m : SeqMap K V) (k : K) (v : V) :
    Option V × SeqMap K V :=
  (assocGet k m.inner, SeqMap.mk (assocInsert k v m.inner))

/-- The concurrent CloneMap backend: dashmap::DashMap, a sharded hash
map. Modelled with an arbitrary hash function and shardCountPred + 1
shards; each key lives in the shard selected by its hash. -/
structure ConcMap (K V : Type) where
  shardCountPred : Nat
  hash : K → Nat
  shards : Nat → List (K × V)

/-- The shard index a key is routed to. -/
def ConcMap.shardOf {K V : Type} (m : ConcMap K V) (k : K) : Nat :=
  m.hash k % (m.shardCountPred + 1)

/-- Concurrent CloneMap::get: looks the key up in its shard and clones
the value out, or none. -/
def ConcMap.get {K V : Type} [DecidableEq K] (m : ConcMap K V) (k : K) : Option V :=
  assocGet k (m.shards (m.shardOf k))

/-- Concurrent CloneMap::insert: stores v under k in its shard,
returning the prior value if any; the second component is the map
afterwards. -/
def ConcMap.insert {K V : Type} [DecidableEq K] (m : ConcMap K V) (k : K) (v : V) :
    Option V × ConcMap K V :=
  let i := m.shardOf k
  (assocGet k (m.shards i),
   ConcMap.mk m.shardCountPred m.hash
     (fun j => if j = i then assocInsert k v (m.shards i) else m.shards j))

/-- One operation of a single-threaded replay against a CloneMap. -/
inductive MapOp (K V : Type) where
  | ins (k : K) (v : V)
  | query (k : K)

/-- Replay a sequence of operations against the sequential backend,
collecting every returned value (both insert's prior value and get's
result are Option V). -/
def SeqMap.replay {K V : Type} [DecidableEq K] :
    List (MapOp K V) → SeqMap K V → List (Option V)
  | [], _ => []
  | MapOp.ins k v :: ops, m =>
    let p := m.insert k v
    p.1 :: SeqMap.replay ops p.2
  | MapOp.query k :: ops, m => m.get k :: SeqMap.replay ops m

/-- Replay a sequence of operations against the concurrent backend,
collecting every returned value. -/
def ConcMap.replay {K V : Type} [DecidableEq K] :
    List (MapOp K V) → ConcMap K V → List (Option V)
  | [], _ => []
  | MapOp.ins k v :: ops, m =>
    let p := m.insert k v
    p.1 :: ConcMap.replay ops p.2
  | MapOp.query k :: ops, m => m.get k :: ConcMap.replay ops m

/-- The fresh, empty concurrent map with the given shard count and
hash function (Default::default()). -/
def ConcMap.empty {K V : Type} (p : Nat) (h : K → Nat) : ConcMap K V :=
  ConcMap.mk p h (fun _ => [])

/-- The fresh, empty sequential map (Default::default()). -/
def SeqMap.empty {K V : Type} : SeqMap K V := SeqMap.mk []

/-- CHashSet over the sequential backend: a CloneMap with unit values;
insert returns whether the element was newly added. -/
structure CHashSetSeq (V : Type) where
  inner : SeqMap V Unit

/-- Sequential CHashSet::insert: self.inner.insert(v, ()).is_none(). -/
def CHashSetSeq.insert {V : Type} [DecidableEq V] (s : CHashSetSeq V) (v : V) :
    Bool × CHashSetSeq V :=
  let p := s.inner.insert v ()
  (p.1.isNone, CHashSetSeq.mk p.2)

/-- Whether an element is currently present in the sequential set. -/
def CHashSetSeq.contains {V : Type} [DecidableEq V] (s : CHashSetSeq V) (v : V) : Bool :=
  (s.inner.get v).isSome

/-- CHashSet over the concurrent backend. -/
structure CHashSetConc (V : Type) where
  inner : ConcMap V Unit

/-- Concurrent CHashSet::insert: self.inner.insert(v, ()).is_none(). -/
def CHashSetConc.insert {V : Type} [DecidableEq V] (s : CHashSetConc V) (v : V) :
    Bool × CHashSetConc V :=
  let p := s.inner.insert v ()
  (p.1.isNone, CHashSetConc.mk p.2)

/-- Whether an element is currently present in the concurrent set. -/
def CHashSetConc.contains {V : Type} [DecidableEq V] (s : CHashSetConc V) (v : V) : Bool :=
  (s.inner.get v).isSome

/-- The sequential join of util.rs: (oper_a(), oper_b()). -/
def join {RA RB : Type} (oper_a : Unit → RA) (oper_b : Unit → RB) : RA × RB :=
  (oper_a (), oper_b ())

/-- The sequential join interpreted over closures with observable
effects (explicit state) and possible failure (a Rust panic or error
is Except.error): Rust evaluates the tuple (oper_a(), oper_b()) left
to right, so a runs to completion first and its failure skips b. -/
def joinSeq {S E RA RB : Type} (a : S → Except E (RA × S)) (b : S → Except E (RB × S))
    (s0 : S) : Except E ((RA × RB) × S) :=
  match a s0 with
  | Except.error e => Except.error e
  | Except.ok (ra, s1) =>
    match b s1 with
    | Except.error e => Except.error e
    | Except.ok (rb, s2) => Except.ok ((ra, rb), s2)

/-- The two backends agree pointwise: the abstraction relation of the
refinement between the sharded concurrent map and the flat sequential
map. -/
def MapAbs {K V : Type} [DecidableEq K] (m : ConcMap K V) (s : SeqMap K V) : Prop :=
  ∀ k, m.get k = s.get k

theorem assocGet_assocInsert {K V : Type} [DecidableEq K] (k k2 : K) (v : V) :
    ∀ l : List (K × V),
      assocGet k2 (assocInsert k v l) = if k2 = k then some v else assocGet k2 l
  | [] => by
    by_cases h : k2 = k
    · subst h
      simp [assocInsert, assocGet]
    · have h4 : ¬ k = k2 := fun hc => h hc.symm
      simp [assocInsert, assocGet, h, h4]
  | p :: ps => by
    by_cases h1 : p.1 = k
    · by_cases h2 : k2 = k
      · subst h2
        simp [assocInsert, assocGet, h1]
      · have h4 : ¬ k = k2 := fun hc => h2 hc.symm
        have h5 : ¬ p.1 = k2 := fun hc => h4 (h1.symm.trans hc)
        simp [assocInsert, assocGet, h1, h2, h4, h5]
    · by_cases h3 : p.1 = k2
      · have h4 : ¬ k2 = k := fun hc => h1 (h3.trans hc)
        simp [assocInsert, assocGet, h1, h3, h4]
      · simp [assocInsert, assocGet, h1, h3, assocGet_assocInsert k k2 v ps]

theorem seq_get_insert {K V : Type} [DecidableEq K] (m : SeqMap K V) (k k2 : K) (v : V) :
    ((m.insert k v).2).get k2 = if k2 = k then some v else m.get k2 := by
  simp [SeqMap.insert, SeqMap.get, assocGet_assocInsert]

theorem conc_get_insert {K V : Type} [DecidableEq K] (m : ConcMap K V) (k k2 : K) (v : V) :
    ((m.insert k v).2).get k2 = if k2 = k then some v else m.get k2 := by
  by_cases hs : ((m.insert k v).2).shardOf k2 = m.shardOf k
  · have hs2 : m.shardOf k2 = m.shardOf k := hs
    simp only [ConcMap.insert, ConcMap.get, ConcMap.shardOf] at *
    simp [hs2, assocGet_assocInsert]
  · have hs2 : ¬ m.shardOf k2 = m.shardOf k := hs
    have hk : ¬ k2 = k := fun hc => hs2 (hc ▸ rfl)
    simp only [ConcMap.insert, ConcMap.get, ConcMap.shardOf] at *
    simp [hs2, hk]

theorem MapAbs.insert {K V : Type} [DecidableEq K] (m : ConcMap K V) (s : SeqMap K V)
    (hab : MapAbs m s) (k : K) (v : V) : MapAbs ((m.insert k v).2) ((s.insert k v).2) := by
  intro k2
  rw [conc_get_insert, seq_get_insert, hab k2]

theorem replay_agrees {K V : Type} [DecidableEq K] :
    ∀ (ops : List (MapOp K V)) (m : ConcMap K V) (s : SeqMap K V),
      MapAbs m s → ConcMap.replay ops m = SeqMap.replay ops s
  | [], _, _, _ => rfl
  | MapOp.ins k v :: ops, m, s, hab => by
    simp only [ConcMap.replay, SeqMap.replay]
    have h1 : (m.insert k v).1 = (s.insert k v).1 := hab k
    rw [h1, replay_agrees ops ((m.insert k v).2) ((s.insert k v).2) (MapAbs.insert m s hab k v)]
  | MapOp.query k :: ops, m, s, hab => by
    simp only [ConcMap.replay, SeqMap.replay]
    rw [hab k, replay_agrees ops m s hab]

/-- Claim C1: for every placeholder-capable type and location holding v,
take returns exactly v and leaves the location holding the dummy. -/
theorem take_returns_value_leaves_dummy {T : Type} [MapWithMut T] (v : T) :
    (take v).1 = v ∧ (take v).2 = MapWithMut.dummy :=
  And.intro rfl rfl

/-- Claim C2: map_with_mut f leaves the location holding f v; in
particular with the identity transform the location is unchanged. -/
theorem map_with_mut_applies_transform {T : Type} [MapWithMut T] (f : T → T) (v : T) :
    map_with_mut f v = f v ∧ map_with_mut (fun x => x) v = v :=
  And.intro rfl rfl

/-- Claim C3: if the transform fails on the taken value, map_with_mut
propagates the failure and leaves the location holding the dummy. -/
theorem map_with_mut_failure_leaves_dummy {T E : Type} [MapWithMut T]
    (f : T → Except E T) (v : T) (e : E) (h : f v = Except.error e) :
    map_with_mut_e f v = (Except.error e, MapWithMut.dummy) := by
  unfold map_with_mut_e
  simp [replace, h]

/-- Witness for C3 at a concrete expression and an always-failing
transform. -/
theorem map_with_mut_failure_leaves_dummy_witness :
    map_with_mut_e (fun _ : Expr => (Except.error 7 : Except Nat Expr))
        (Expr.lit DUMMY_SP 5)
      = (Except.error 7, MapWithMut.dummy) :=
  map_with_mut_failure_leaves_dummy (fun _ => Except.error 7) (Expr.lit DUMMY_SP 5) 7 rfl

mutual

theorem removeHygiene_ctxt_empty : ∀ t : Node,
    ∀ s ∈ spansOf (removeHygiene t), s.ctxt = emptySyntaxContext
  | Node.node k sp cs => by
    intro s hs
    simp only [removeHygiene, spansOf, List.mem_cons] at hs
    cases hs with
    | inl h => subst h; rfl
    | inr h => exact removeHygieneList_ctxt_empty cs s h

theorem removeHygieneList_ctxt_empty : ∀ ts : List Node,
    ∀ s ∈ spansOfList (removeHygieneList ts), s.ctxt = emptySyntaxContext
  | [] => by intro s hs; simp [removeHygieneList, spansOfList] at hs
  | c :: cs => by
    intro s hs
    simp only [removeHygieneList, spansOfList, List.mem_append] at hs
    cases hs with
    | inl h => exact removeHygiene_ctxt_empty c s h
    | inr h => exact removeHygieneList_ctxt_empty cs s h

end

mutual

theorem removeHygiene_idem : ∀ t : Node,
    removeHygiene (removeHygiene t) = removeHygiene t
  | Node.node k sp cs => by
    simp only [removeHygiene]
    exact congrArg (Node.node k (visit_mut_span sp)) (removeHygieneList_idem cs)

theorem removeHygieneList_idem : ∀ ts : List Node,
    removeHygieneList (removeHygieneList ts) = removeHygieneList ts
  | [] => rfl
  | c :: cs => by
    simp only [removeHygieneList]
    rw [removeHygiene_idem c, removeHygieneList_idem cs]

end

mutual

theorem shapeOf_removeHygiene : ∀ t : Node,
    shapeOf (removeHygiene t) = shapeOf t
  | Node.node k sp cs => by
    simp only [removeHygiene, shapeOf, visit_mut_span, Span.with_ctxt]
    exact congrArg (Shape.node k sp.lo sp.hi) (shapeOfList_removeHygieneList cs)

theorem shapeOfList_removeHygieneList : ∀ ts : List Node,
    shapeOfList (removeHygieneList ts) = shapeOfList ts
  | [] => rfl
  | c :: cs => by
    simp only [removeHygieneList, shapeOfList]
    rw [shapeOf_removeHygiene c, shapeOfList_removeHygieneList cs]

end

/-- Claim C4: after one hygiene-removal pass every scope-identity tag
reachable in the tree equals the canonical empty tag, and a second
pass yields the same tree as one pass. -/
theorem hygiene_removal_empties_tags_and_idempotent (t : Node) :
    (∀ s ∈ spansOf (removeHygiene t), s.ctxt = emptySyntaxContext) ∧
    removeHygiene (removeHygiene t) = removeHygiene t :=
  And.intro (removeHygiene_ctxt_empty t) (removeHygiene_idem t)

/-- Witness for C4 at a concrete tree carrying nonempty tags. -/
theorem hygiene_removal_empties_tags_and_idempotent_witness :
    (∀ s ∈ spansOf (removeHygiene sampleTree), s.ctxt = emptySyntaxContext) ∧
    removeHygiene (removeHygiene sampleTree) = removeHygiene sampleTree :=
  hygiene_removal_empties_tags_and_idempotent sampleTree

/-- Claim C5: the hygiene-removal pass changes nothing except the
scope-identity tags: the projection onto all non-tag content (kinds,
lo and hi of every span, ordering and tree structure) is unchanged. -/
theorem hygiene_removal_preserves_shape (t : Node) :
    shapeOf (removeHygiene t) = shapeOf t :=
  shapeOf_removeHygiene t

/-- Claim C6: replaying any single-threaded sequence of insert and get
operations from the fresh state returns the same sequence of values on
the concurrent (sharded) backend, for every shard count and hash
function, as on the sequential backend. -/
theorem clone_map_backends_observationally_equal {K V : Type} [DecidableEq K]
    (p : Nat) (h : K → Nat) (ops : List (MapOp K V)) :
    ConcMap.replay ops (ConcMap.empty p h) = SeqMap.replay ops SeqMap.empty :=
  replay_agrees ops (ConcMap.empty p h) SeqMap.empty (fun _ => rfl)

/-- Claim C7: on both backends, insert returns the value previously
stored under the key (none if absent) and afterwards the key maps to
the new value while every other key is untouched; get returns the
stored value or none. -/
theorem clone_map_insert_get_semantics {K V : Type} [DecidableEq K]
    (m : ConcMap K V) (s : SeqMap K V) (k k2 : K) (v : V) :
    (m.insert k v).1 = m.get k ∧
    (s.insert k v).1 = s.get k ∧
    ((m.insert k v).2).get k2 = (if k2 = k then some v else m.get k2) ∧
    ((s.insert k v).2).get k2 = (if k2 = k then some v else s.get k2) :=
  And.intro rfl (And.intro rfl
    (And.intro (conc_get_insert m k k2 v) (seq_get_insert s k k2 v)))

/-- Claim C8: on both backends, set insert returns true exactly when
the element was absent, and an immediate repeat insert of the same
element returns false. -/
theorem chashset_insert_reports_newness {V : Type} [DecidableEq V]
    (sq : CHashSetSeq V) (cc : CHashSetConc V) (v : V) :
    (sq.insert v).1 = !sq.contains v ∧ (((sq.insert v).2).insert v).1 = false ∧
    (cc.insert v).1 = !cc.contains v ∧ (((cc.insert v).2).insert v).1 = false := by
  refine And.intro ?hs1 (And.intro ?hs2 (And.intro ?hc1 ?hc2))
  case hs1 =>
    simp only [CHashSetSeq.insert, CHashSetSeq.contains, SeqMap.insert, SeqMap.get]
    cases assocGet v sq.inner.inner <;> rfl
  case hs2 =>
    simp [CHashSetSeq.insert, SeqMap.insert, assocGet_assocInsert]
  case hc1 =>
    simp only [CHashSetConc.insert, CHashSetConc.contains, ConcMap.insert, ConcMap.get]
    cases assocGet v (cc.inner.shards (cc.inner.shardOf v)) <;> rfl
  case hc2 =>
    simp [CHashSetConc.insert, ConcMap.insert, ConcMap.shardOf, assocGet_assocInsert]

/-- Claim C9: in sequential mode, join runs a to completion before b
starts (b observes the state a left behind) and returns the pair of
results with a's first; if a fails, the pair aborts with a's failure
without ever running b (the outcome is independent of b). -/
theorem join_sequential_runs_a_then_b {S E RA RB : Type}
    (a : S → Except E (RA × S)) (b : S → Except E (RB × S)) (s0 : S) :
    (∀ ra s1 rb s2, a s0 = Except.ok (ra, s1) → b s1 = Except.ok (rb, s2) →
      joinSeq a b s0 = Except.ok ((ra, rb), s2)) ∧
    (∀ e, a s0 = Except.error e →
      ∀ (RB2 : Type) (b2 : S → Except E (RB2 × S)), joinSeq a b2 s0 = Except.error e) := by
  constructor
  · intro ra s1 rb s2 ha hb
    simp [joinSeq, ha, hb]
  · intro e ha RB2 b2
    simp [joinSeq, ha]

/-- Witness for C9: two effect-logging closures; a's log entry lands
before b's and the results come back as a pair with a's first. -/
theorem join_sequential_runs_a_then_b_witness :
    joinSeq (fun l : List Nat => (Except.ok (1, l ++ [10]) : Except Unit (Nat × List Nat)))
        (fun l : List Nat => (Except.ok (2, l ++ [20]) : Except Unit (Nat × List Nat)))
        []
      = Except.ok ((1, 2), [10, 20]) :=
  (join_sequential_runs_a_then_b
      (fun l => Except.ok (1, l ++ [10])) (fun l => Except.ok (2, l ++ [20])) []).1
    1 [10] 2 [10, 20] rfl rfl

/-- Claim C10: the dummy of the pattern-or-expression union is the
pattern variant wrapping an identifier with empty name and dummy span;
it is never the expression variant. -/
theorem pat_or_expr_dummy_is_empty_ident_pat :
    PatOrExpr.dummy = PatOrExpr.pat (Box.mk (Pat.ident (Ident.mk "" (Span.mk 0 0 0)))) ∧
    PatOrExpr.isPat PatOrExpr.dummy = true :=
  And.intro rfl rfl

end SwcUtil
